import Mathlib

/-!
Verification of the mqtt-client message interpreter.

A shallow embedding of the domain logic of `src/src/App.jsx`:

* `parseMessage` (lines 174-191): keyword acceptance test, `;`/`,`
  splitting, `Number(...)` conversion, and the append of an accepted
  sample to the in-memory series;
* the series accumulator (`setMessages(prev => [...prev, parsedMessage])`,
  line 188);
* `connect` / `disconnect` (lines 110-134): the secure-scheme guard and
  the replace-the-single-handle discipline.

JavaScript strings are modelled as `List Char` (the payloads at issue are
ASCII; `String.prototype.toLowerCase` agrees with `Char.toLower` there).
JavaScript numbers are modelled as `Option ℚ`, `none` standing for `NaN`:
every numeric literal `Number(...)` accepts denotes an exact rational,
and `isNaN` is exactly `Option.isNone`.  A JavaScript runtime `TypeError`
(calling a method on `undefined`, as happens when a semicolon-delimited
segment is missing or lacks a comma) is modelled as an explicit `crash`
outcome.  Timestamps (`new Date()`) are modelled by passing the current
clock value as a natural number.
-/

/-- The whitespace characters recognised by JavaScript string trimming and
by `Number(...)` conversion (WhiteSpace ∪ LineTerminator): TAB, LF, VT,
FF, CR, SP, NBSP, LS, PS, BOM. -/
def jsWhite (c : Char) : Bool :=
  c.toNat = 9 ∨ c.toNat = 10 ∨ c.toNat = 11 ∨ c.toNat = 12 ∨
  c.toNat = 13 ∨ c.toNat = 32 ∨ c.toNat = 160 ∨ c.toNat = 0x2028 ∨
  c.toNat = 0x2029 ∨ c.toNat = 0xFEFF

/-- `String.prototype.trim`: remove leading whitespace, then trailing
whitespace. -/
def jsTrim (s : List Char) : List Char :=
  List.rdropWhile jsWhite (s.dropWhile jsWhite)

/-- `String.prototype.toLowerCase`, restricted to basic latin (the only
characters the payload format uses). -/
def jsLower (s : List Char) : List Char :=
  s.map Char.toLower

/-- `String.prototype.includes`: substring test. -/
def jsIncludes (needle : List Char) : List Char → Bool
  | [] => needle.isEmpty
  | c :: cs => needle.isPrefixOf (c :: cs) || jsIncludes needle cs

/-- `String.prototype.split` with a one-character separator: JavaScript
split never returns an empty array (`"".split(';') === [""]`). -/
def jsSplit (sep : Char) : List Char → List (List Char)
  | [] => [[]]
  | c :: cs =>
    if c = sep then [] :: jsSplit sep cs
    else
      match jsSplit sep cs with
      | [] => [[c]]
      | r :: rs => (c :: r) :: rs

/-- Decimal digit test. -/
def isDig (c : Char) : Bool := 48 ≤ c.toNat ∧ c.toNat ≤ 57

/-- Hexadecimal digit test (both letter cases, as JavaScript accepts). -/
def isHexDig (c : Char) : Bool :=
  isDig c ∨ (97 ≤ c.toNat ∧ c.toNat ≤ 102) ∨ (65 ≤ c.toNat ∧ c.toNat ≤ 70)

/-- Octal digit test. -/
def isOctDig (c : Char) : Bool := 48 ≤ c.toNat ∧ c.toNat ≤ 55

/-- Binary digit test. -/
def isBinDig (c : Char) : Bool := c = '0' ∨ c = '1'

/-- Numeric value of a hexadecimal digit. -/
def hexDigVal (c : Char) : ℕ :=
  if isDig c then c.toNat - 48
  else if 97 ≤ c.toNat ∧ c.toNat ≤ 102 then c.toNat - 87
  else c.toNat - 55

/-- Value of a decimal digit string (most significant first). -/
def decVal (ds : List Char) : ℕ :=
  ds.foldl (fun a c => 10 * a + (c.toNat - 48)) 0

/-- Value of a hexadecimal digit string (most significant first). -/
def hexVal (ds : List Char) : ℕ :=
  ds.foldl (fun a c => 16 * a + hexDigVal c) 0

/-- Value of a binary digit string. -/
def binVal (ds : List Char) : ℕ :=
  ds.foldl (fun a c => 2 * a + (c.toNat - 48)) 0

/-- Value of an octal digit string. -/
def octVal (ds : List Char) : ℕ :=
  ds.foldl (fun a c => 8 * a + (c.toNat - 48)) 0

/-- The optional exponent part of a decimal literal: empty, or
`e`/`E` followed by an optionally signed nonempty digit string.
`none` means the remainder is not a well-formed exponent part. -/
def expPart : List Char → Option ℤ
  | [] => some 0
  | c :: rest =>
    if c = 'e' ∨ c = 'E' then
      match rest with
      | '+' :: ds => if ds ≠ [] ∧ ds.all isDig then some (decVal ds) else none
      | '-' :: ds => if ds ≠ [] ∧ ds.all isDig then some (-(decVal ds : ℤ)) else none
      | ds => if ds ≠ [] ∧ ds.all isDig then some (decVal ds) else none
    else none

/-- Apply a power-of-ten exponent to an unreduced fraction `n / d`. -/
def scale10 (n d : ℕ) (e : ℤ) : ℕ × ℕ :=
  if 0 ≤ e then (n * 10 ^ e.toNat, d) else (n, d * 10 ^ (-e).toNat)

/-- An unsigned decimal literal: `digits [. digits] [exp]` or
`. digits [exp]`, consuming the whole string.  Returns its exact value as
an unreduced fraction (numerator, denominator), or `none` if the string
is not such a literal. -/
def decParts (s : List Char) : Option (ℕ × ℕ) :=
  let ip := s.takeWhile isDig
  let r1 := s.dropWhile isDig
  match r1 with
  | '.' :: r2 =>
    let fp := r2.takeWhile isDig
    let r3 := r2.dropWhile isDig
    if ip = [] ∧ fp = [] then none
    else
      match expPart r3 with
      | none => none
      | some e =>
        some (scale10 (decVal ip * 10 ^ fp.length + decVal fp) (10 ^ fp.length) e)
  | r2 =>
    if ip = [] then none
    else
      match expPart r2 with
      | none => none
      | some e => some (scale10 (decVal ip) 1 e)

/-- `Number(string)` on a string already stripped of surrounding
whitespace: empty means `0`; `0x`/`0o`/`0b` prefixes select radix
literals (unsigned only, as in JavaScript); otherwise an optionally
signed decimal literal.  `none` is `NaN`.  (`"Infinity"` is not
representable in ℚ and is omitted: `parseMessage` lower-cases its input
first, and JavaScript's case-sensitive `Number("infinity")` is `NaN`, so
the omission is invisible to the embedded code.) -/
def numTrimmed : List Char → Option ℚ
  | [] => some 0
  | '+' :: rest => (decParts rest).map (fun p => mkRat p.1 p.2)
  | '-' :: rest => (decParts rest).map (fun p => mkRat (-(p.1 : ℤ)) p.2)
  | '0' :: c :: rest =>
    if c = 'x' ∨ c = 'X' then
      if rest ≠ [] ∧ rest.all isHexDig then some (mkRat (hexVal rest) 1) else none
    else if c = 'o' ∨ c = 'O' then
      if rest ≠ [] ∧ rest.all isOctDig then some (mkRat (octVal rest) 1) else none
    else if c = 'b' ∨ c = 'B' then
      if rest ≠ [] ∧ rest.all isBinDig then some (mkRat (binVal rest) 1) else none
    else (decParts ('0' :: c :: rest)).map (fun p => mkRat p.1 p.2)
  | s => (decParts s).map (fun p => mkRat p.1 p.2)

/-- `Number(string)`: trim, then convert. -/
def jsNumber (s : List Char) : Option ℚ :=
  numTrimmed (jsTrim s)

/-- One parsed data point (`parsedMessage`, App.jsx lines 182-187).
`time` is the clock value at the moment of acceptance. -/
structure Sample where
  time : ℕ
  min : ℚ
  max : ℚ
  average : ℚ
deriving DecidableEq, Repr

/-- Outcome of one `parseMessage` call: a runtime `TypeError` (indexing
past the end of the split array, or splitting a comma-less segment,
yields `undefined`, and the subsequent method call on it throws), a
silent rejection, or an accepted sample. -/
inductive ParseOutcome where
  | crash
  | noSample
  | sample (s : Sample)
deriving DecidableEq, Repr

/-- The keyword `'average'` of the acceptance test (App.jsx line 176). -/
def kwAverage : List Char := ['a', 'v', 'e', 'r', 'a', 'g', 'e']

/-- The keyword `'min'` of the acceptance test (App.jsx line 176). -/
def kwMin : List Char := ['m', 'i', 'n']

/-- The keyword `'max'` of the acceptance test (App.jsx line 176). -/
def kwMax : List Char := ['m', 'a', 'x']

/-- `segment.split(',')[1].trim()`: `none` when the segment has no comma,
in which case the JavaScript original throws before trimming. -/
def segValue (seg : List Char) : Option (List Char) :=
  ((jsSplit ',' seg)[1]?).map jsTrim

/-- `parseMessage` (App.jsx lines 174-191), as a function of the current
clock `now` and the raw payload. -/
def parseMessage (now : ℕ) (message : List Char) : ParseOutcome :=
  let messageLower := jsLower message
  if jsIncludes kwAverage messageLower && jsIncludes kwMin messageLower &&
      jsIncludes kwMax messageLower then
    let messageValues := jsSplit ';' (jsLower message)
    match messageValues[0]?, messageValues[1]?, messageValues[2]? with
    | some s0, some s1, some s2 =>
      match segValue s0, segValue s1, segValue s2 with
      | some v0, some v1, some v2 =>
        match jsNumber v0, jsNumber v1, jsNumber v2 with
        | some a, some m, some mx => .sample ⟨now, m, mx, a⟩
        | _, _, _ => .noSample
      | _, _, _ => .crash
    | _, _, _ => .crash
  else .noSample

/-- The series accumulator: `setMessages(prev => [...prev, parsedMessage])`
(App.jsx line 188). -/
def appendSample (series : List Sample) (s : Sample) : List Sample :=
  series ++ [s]

/-- One `parseMessage` call together with its effect on the series: only
an accepted sample mutates the series. -/
def parseStep (now : ℕ) (series : List Sample) (message : List Char) :
    ParseOutcome × List Sample :=
  match parseMessage now message with
  | .sample s => (.sample s, appendSample series s)
  | o => (o, series)

/-- The sample a `parseMessage` call accepts, if any. -/
def parsedSample (now : ℕ) (message : List Char) : Option Sample :=
  match parseMessage now message with
  | .sample s => some s
  | _ => none

/-- Run a sequence of timestamped incoming payloads through the parser,
threading the series. -/
def runMessages : List (ℕ × List Char) → List Sample → List Sample
  | [], series => series
  | (t, m) :: rest, series => runMessages rest (parseStep t series m).2

/-- The value assignment §4.1 of the specification describes for one
segment: "the substring after the first `,`, trims surrounding
whitespace" — everything following the first comma, trimmed (`none` when
the segment has no comma).  Stated from the specification's words, for
comparison against `segValue`, which embeds the source. -/
def specSegValue (seg : List Char) : Option (List Char) :=
  match seg.dropWhile (fun c => ¬ c = ',') with
  | [] => none
  | _ :: rest => some (jsTrim rest)

/-- The connection-manager state the component keeps: `clientRef.current`
(clients identified by a number), `isConnected`, and the status line. -/
structure AppState where
  client : Option ℕ
  isConnected : Bool
  status : List Char
deriving DecidableEq, Repr

/-- Status line set by `disconnect` (App.jsx line 121). -/
def statusDisconnected : List Char := "Disconnected".toList

/-- Status line set when the broker URL is not `wss://` (App.jsx
line 126). -/
def statusSchemeError : List Char :=
  "Broker must use wss:// when app is served over HTTPS".toList

/-- Status line set when a connection attempt starts (App.jsx line 131). -/
def statusConnecting (brokerUrl : List Char) : List Char :=
  "Connecting to ".toList ++ brokerUrl ++ " ...".toList

/-- The secure WebSocket scheme required by the guard (App.jsx line 125). -/
def wssScheme : List Char := "wss://".toList

/-- `disconnect` (App.jsx lines 110-122): if a client is live, end it —
`c.end(true)` may throw (`endThrows`), and the `catch` block ignores the
failure — then clear the handle, the connected flag and the status.  The
resulting state does not depend on whether the teardown threw. -/
def disconnect (endThrows : Bool) (st : AppState) : AppState :=
  match st.client with
  | some _ =>
    { client := none, isConnected := false, status := statusDisconnected }
  | none =>
    { st with isConnected := false, status := statusDisconnected }

/-- `connect` (App.jsx lines 124-134): reject a non-`wss://` URL before
anything else, otherwise tear the existing connection down and install a
fresh client.  (`isConnected` only becomes true later, on the client's
`connect` event.) -/
def connect (newClient : ℕ) (endThrows : Bool) (brokerUrl : List Char)
    (st : AppState) : AppState :=
  if ¬ wssScheme.isPrefixOf brokerUrl then
    { st with status := statusSchemeError }
  else
    let st1 := disconnect endThrows st
    { st1 with status := statusConnecting brokerUrl, client := some newClient }

/-! ## Utility lemmas about the string primitives -/

theorem jsSplit_ne_nil (sep : Char) (s : List Char) : jsSplit sep s ≠ [] := by
  induction s with
  | nil => simp [jsSplit]
  | cons c cs ih =>
    unfold jsSplit
    split
    · simp
    · split <;> simp

theorem jsSplit_sep_free {sep : Char} {s : List Char} (h : sep ∉ s) :
    jsSplit sep s = [s] := by
  induction s with
  | nil => rfl
  | cons c cs ih =>
    have hc : ¬ c = sep := fun e => h (e ▸ List.mem_cons_self c cs)
    have ih' := ih (fun m => h (List.mem_cons_of_mem c m))
    simp only [jsSplit, if_neg hc, ih']

theorem jsSplit_append {sep : Char} {a : List Char} (b : List Char)
    (h : sep ∉ a) : jsSplit sep (a ++ sep :: b) = a :: jsSplit sep b := by
  induction a with
  | nil => simp [jsSplit]
  | cons c a' ih =>
    have hc : ¬ c = sep := fun e => h (e ▸ List.mem_cons_self c a')
    have ih' := ih (fun m => h (List.mem_cons_of_mem c m))
    show (if c = sep then [] :: jsSplit sep (a' ++ sep :: b)
          else match jsSplit sep (a' ++ sep :: b) with
               | [] => [[c]]
               | r :: rs => (c :: r) :: rs) = (c :: a') :: jsSplit sep b
    rw [if_neg hc, ih']

theorem jsIncludes_iff (needle s : List Char) :
    jsIncludes needle s = true ↔ needle <:+: s := by
  induction s with
  | nil => simp [jsIncludes, List.isEmpty_iff]
  | cons c cs ih =>
    simp [jsIncludes, ih, List.infix_cons_iff, List.isPrefixOf_iff_prefix]

theorem dropWhile_head_false {α : Type} {p : α → Bool} :
    ∀ {l : List α} {c : α} {r : List α}, List.dropWhile p l = c :: r → p c = false := by
  intro l
  induction l with
  | nil => intro c r h; simp [List.dropWhile] at h
  | cons a l' ih =>
    intro c r h
    rw [List.dropWhile_cons] at h
    by_cases hp : p a
    · rw [if_pos hp] at h
      exact ih h
    · rw [if_neg hp] at h
      injection h with h1 h2
      subst h1
      simpa using hp

theorem dropWhile_rdropWhile_dropWhile {α : Type} (p : α → Bool) (l : List α) :
    ((l.dropWhile p).rdropWhile p).dropWhile p = (l.dropWhile p).rdropWhile p := by
  cases hw : (l.dropWhile p).rdropWhile p with
  | nil => simp
  | cons c w' =>
    rw [List.dropWhile_cons]
    obtain ⟨t, ht⟩ := List.rdropWhile_prefix p (l.dropWhile p)
    rw [hw] at ht
    have hu : List.dropWhile p l = c :: (w' ++ t) := by
      rw [← ht]
      rfl
    simp [dropWhile_head_false hu]

theorem jsTrim_idem (s : List Char) : jsTrim (jsTrim s) = jsTrim s := by
  unfold jsTrim
  rw [dropWhile_rdropWhile_dropWhile, List.rdropWhile_idempotent]

theorem jsNumber_jsTrim (s : List Char) : jsNumber (jsTrim s) = jsNumber s := by
  unfold jsNumber
  rw [jsTrim_idem]

theorem infix_extend {kw x : List Char} (pre post : List Char)
    (h : kw <:+: x) : kw <:+: pre ++ (x ++ post) := by
  obtain ⟨s, t, rfl⟩ := h
  exact ⟨pre ++ s, t ++ post, by simp⟩

theorem sep_not_mem_seg {L V T : List Char} {sep other : Char}
    (hso : ¬ sep = other) (h1 : sep ∉ L) (h2 : sep ∉ V) (h3 : sep ∉ T) :
    sep ∉ L ++ other :: (V ++ T) := by
  intro hm
  rcases List.mem_append.mp hm with h | h
  · exact h1 h
  · rcases List.mem_cons.mp h with h | h
    · exact hso h
    · rcases List.mem_append.mp h with h | h
      · exact h2 h
      · exact h3 h

/-- On a segment of the shape `label , value tail` — comma-free label and
value, tail empty or starting with a comma — the source's
`segment.split(',')[1].trim()` is exactly the trimmed value. -/
theorem segValue_append (L V T : List Char) (hL : ',' ∉ L) (hV : ',' ∉ V)
    (hT : T = [] ∨ ∃ u, T = ',' :: u) :
    segValue (L ++ ',' :: (V ++ T)) = some (jsTrim V) := by
  unfold segValue
  rw [jsSplit_append _ hL]
  rcases hT with rfl | ⟨u, rfl⟩
  · rw [List.append_nil, jsSplit_sep_free hV]
    simp
  · rw [jsSplit_append u hV]
    simp

/-- Characterisation of `parseMessage` on any payload whose lower-cased
text decomposes as `L0,V0T0;L1,V1T1;L2,V2T2 T3` — three semicolon-
delimited segments (plus an arbitrary remainder `T3`), each segment a
label, a comma, a value, and a possible further comma-led tail — provided
the three keywords occur somewhere in the lower-cased text.  The outcome
is decided positionally by `Number` on the three trimmed values. -/
theorem parseMessage_decomp (now : ℕ)
    (message L0 V0 T0 L1 V1 T1 L2 V2 T2 T3 : List Char)
    (hmsg : jsLower message =
      (L0 ++ ',' :: (V0 ++ T0)) ++ ';' ::
        ((L1 ++ ',' :: (V1 ++ T1)) ++ ';' :: ((L2 ++ ',' :: (V2 ++ T2)) ++ T3)))
    (hs : ∀ x ∈ [L0, V0, T0, L1, V1, T1, L2, V2, T2], ';' ∉ x)
    (hL : ∀ x ∈ [L0, L1, L2], ',' ∉ x)
    (hV : ∀ x ∈ [V0, V1, V2], ',' ∉ x)
    (hT : ∀ x ∈ [T0, T1, T2], x = [] ∨ ∃ u, x = ',' :: u)
    (hT3 : T3 = [] ∨ ∃ u, T3 = ';' :: u)
    (hka : jsIncludes kwAverage (jsLower message) = true)
    (hkm : jsIncludes kwMin (jsLower message) = true)
    (hkx : jsIncludes kwMax (jsLower message) = true) :
    parseMessage now message =
      match jsNumber V0, jsNumber V1, jsNumber V2 with
      | some a, some m, some mx => .sample ⟨now, m, mx, a⟩
      | _, _, _ => .noSample := by
  have hS0 : (';' : Char) ∉ L0 ++ ',' :: (V0 ++ T0) :=
    sep_not_mem_seg (by decide) (hs L0 (by simp)) (hs V0 (by simp))
      (hs T0 (by simp))
  have hS1 : (';' : Char) ∉ L1 ++ ',' :: (V1 ++ T1) :=
    sep_not_mem_seg (by decide) (hs L1 (by simp)) (hs V1 (by simp))
      (hs T1 (by simp))
  have hS2 : (';' : Char) ∉ L2 ++ ',' :: (V2 ++ T2) :=
    sep_not_mem_seg (by decide) (hs L2 (by simp)) (hs V2 (by simp))
      (hs T2 (by simp))
  have htail : ∃ rest, jsSplit ';' ((L2 ++ ',' :: (V2 ++ T2)) ++ T3) =
      (L2 ++ ',' :: (V2 ++ T2)) :: rest := by
    rcases hT3 with rfl | ⟨u, rfl⟩
    · exact ⟨[], by rw [List.append_nil, jsSplit_sep_free hS2]⟩
    · exact ⟨jsSplit ';' u, jsSplit_append u hS2⟩
  obtain ⟨rest, hrest⟩ := htail
  have hsplit : jsSplit ';' (jsLower message) =
      (L0 ++ ',' :: (V0 ++ T0)) :: (L1 ++ ',' :: (V1 ++ T1)) ::
        (L2 ++ ',' :: (V2 ++ T2)) :: rest := by
    rw [hmsg, jsSplit_append _ hS0, jsSplit_append _ hS1, hrest]
  have hseg0 : segValue (L0 ++ ',' :: (V0 ++ T0)) = some (jsTrim V0) :=
    segValue_append _ _ _ (hL L0 (by simp)) (hV V0 (by simp)) (hT T0 (by simp))
  have hseg1 : segValue (L1 ++ ',' :: (V1 ++ T1)) = some (jsTrim V1) :=
    segValue_append _ _ _ (hL L1 (by simp)) (hV V1 (by simp)) (hT T1 (by simp))
  have hseg2 : segValue (L2 ++ ',' :: (V2 ++ T2)) = some (jsTrim V2) :=
    segValue_append _ _ _ (hL L2 (by simp)) (hV V2 (by simp)) (hT T2 (by simp))
  simp only [parseMessage, hka, hkm, hkx, Bool.and_self, if_true, hsplit,
    List.getElem?_cons_zero, List.getElem?_cons_succ, hseg0, hseg1, hseg2,
    jsNumber_jsTrim]

/-- A comma-less segment makes `split(',')[1]` `undefined`. -/
theorem segValue_eq_none {s : List Char} (h : ',' ∉ s) : segValue s = none := by
  unfold segValue
  rw [jsSplit_sep_free h]
  rfl

/-- `parseMessage` on a payload that passes the keyword test but whose
structure is malformed — fewer than three semicolon-delimited segments,
or one of the first three segments without a comma — reproduces the
source's `TypeError` (method call on `undefined`). -/
theorem parseMessage_malformed (now : ℕ) (message : List Char)
    (hka : jsIncludes kwAverage (jsLower message) = true)
    (hkm : jsIncludes kwMin (jsLower message) = true)
    (hkx : jsIncludes kwMax (jsLower message) = true)
    (hbad : (jsSplit ';' (jsLower message)).length < 3 ∨
      ∃ i, i < 3 ∧ ∃ s, (jsSplit ';' (jsLower message))[i]? = some s ∧
        ',' ∉ s) :
    parseMessage now message = .crash := by
  simp only [parseMessage, hka, hkm, hkx, Bool.and_self, if_true]
  rcases hbad with hlen | ⟨i, hi, s, hsi, hci⟩
  · have h2 : (jsSplit ';' (jsLower message))[2]? = none := by
      apply List.getElem?_eq_none
      omega
    cases hx0 : (jsSplit ';' (jsLower message))[0]? <;>
      cases hx1 : (jsSplit ';' (jsLower message))[1]? <;> simp [h2]
  · have hsv : segValue s = none := segValue_eq_none hci
    interval_cases i
    · cases hx1 : (jsSplit ';' (jsLower message))[1]? with
      | none => rw [hsi]
      | some s1 =>
        cases hx2 : (jsSplit ';' (jsLower message))[2]? with
        | none => rw [hsi]
        | some s2 =>
          rw [hsi]
          simp [hsv]
    · cases hx0 : (jsSplit ';' (jsLower message))[0]? with
      | none => rfl
      | some s0 =>
        cases hx2 : (jsSplit ';' (jsLower message))[2]? with
        | none => rw [hsi]
        | some s2 =>
          rw [hsi]
          cases hy0 : segValue s0 <;> simp [hsv]
    · cases hx0 : (jsSplit ';' (jsLower message))[0]? with
      | none => rfl
      | some s0 =>
        cases hx1 : (jsSplit ';' (jsLower message))[1]? with
        | none => rw [hsi]
        | some s1 =>
          rw [hsi]
          cases hy0 : segValue s0 <;> cases hy1 : segValue s1 <;> simp [hsv]

/-- A sample produced by `parseMessage` is stamped with the clock value of
the call (`time: new Date()`, App.jsx line 183). -/
theorem parseMessage_sample_time {now : ℕ} {m : List Char} {s : Sample}
    (h : parseMessage now m = .sample s) : s.time = now := by
  simp only [parseMessage] at h
  split at h
  · split at h
    · split at h
      · split at h
        · cases h
          rfl
        · exact absurd h (by simp)
      · exact absurd h (by simp)
    · exact absurd h (by simp)
  · exact absurd h (by simp)

theorem parsedSample_time {now : ℕ} {m : List Char} {s : Sample}
    (h : parsedSample now m = some s) : s.time = now := by
  unfold parsedSample at h
  cases hp : parseMessage now m with
  | sample s' =>
    rw [hp] at h
    cases h
    exact parseMessage_sample_time hp
  | crash => rw [hp] at h; cases h
  | noSample => rw [hp] at h; cases h

theorem parseStep_snd (now : ℕ) (series : List Sample) (m : List Char) :
    (parseStep now series m).2 = series ++ (parsedSample now m).toList := by
  unfold parseStep parsedSample
  cases parseMessage now m <;> simp [appendSample]

theorem runMessages_eq (trace : List (ℕ × List Char)) (series : List Sample) :
    runMessages trace series =
      series ++ trace.filterMap (fun p => parsedSample p.1 p.2) := by
  induction trace generalizing series with
  | nil => simp [runMessages]
  | cons p rest ih =>
    obtain ⟨t, m⟩ := p
    rw [show runMessages ((t, m) :: rest) series =
          runMessages rest (parseStep t series m).2 from rfl,
        ih, parseStep_snd]
    cases hp : parsedSample t m <;> simp [List.filterMap_cons, hp]

theorem filterMap_time_eq (trace : List (ℕ × List Char)) :
    (trace.filterMap (fun p => parsedSample p.1 p.2)).map Sample.time =
      (trace.filter (fun p => (parsedSample p.1 p.2).isSome)).map Prod.fst := by
  induction trace with
  | nil => rfl
  | cons p rest ih =>
    cases hp : parsedSample p.1 p.2 with
    | none => simp [List.filterMap_cons, List.filter_cons, hp, ih]
    | some s =>
      have ht := parsedSample_time hp
      simp [List.filterMap_cons, List.filter_cons, hp, ih, ht]

theorem mkRat_natCast (k : ℕ) : mkRat (k : ℤ) 1 = (k : ℚ) := by
  have h := Rat.mkRat_self ((k : ℚ))
  rwa [Rat.num_natCast, Rat.den_natCast] at h

/-- `Number` on a `0x` hexadecimal literal is its integer value. -/
theorem numTrimmed_hex {ds : List Char} (h1 : ds ≠ [])
    (h2 : ds.all isHexDig = true) :
    numTrimmed ('0' :: 'x' :: ds) = some (mkRat (hexVal ds) 1) := by
  simp [numTrimmed, h1, h2]

/-- C5: for every series and every sample, `append(series, sample)`
returns a series one longer, whose first `len(series)` elements are the
prior elements unchanged and in order, and whose last element is the
appended sample; nothing is deduplicated, capped or evicted. -/
theorem claim_C5_append_additive (series : List Sample) (s : Sample) :
    (appendSample series s).length = series.length + 1 ∧
    (∀ i, i < series.length → (appendSample series s)[i]? = series[i]?) ∧
    (appendSample series s)[series.length]? = some s := by
  refine ⟨by simp [appendSample], fun i hi => ?_, ?_⟩
  · unfold appendSample
    rw [List.getElem?_append, if_pos hi]
  · unfold appendSample
    rw [List.getElem?_append]
    simp

/-- Witness for C5 at a concrete series and sample. -/
theorem claim_C5_append_additive_witness :
    (0 : ℕ) < 1 ∧
    (appendSample [⟨1, 2, 3, 4⟩] ⟨5, 6, 7, 8⟩).length = 2 ∧
    (appendSample [⟨1, 2, 3, 4⟩] ⟨5, 6, 7, 8⟩)[0]? = some ⟨1, 2, 3, 4⟩ ∧
    (appendSample [⟨1, 2, 3, 4⟩] ⟨5, 6, 7, 8⟩)[1]? = some ⟨5, 6, 7, 8⟩ :=
  ⟨by decide, (claim_C5_append_additive [⟨1, 2, 3, 4⟩] ⟨5, 6, 7, 8⟩).1,
    (claim_C5_append_additive [⟨1, 2, 3, 4⟩] ⟨5, 6, 7, 8⟩).2.1 0 (by decide),
    (claim_C5_append_additive [⟨1, 2, 3, 4⟩] ⟨5, 6, 7, 8⟩).2.2⟩

/-- C6: every series reachable by a sequence of `parseMessage` calls made
with a non-decreasing clock has non-decreasing `time` values, its length
is the number of accepted payloads, and each accepted sample is stamped
with the clock value at its moment of acceptance. -/
theorem claim_C6_series_invariant (trace : List (ℕ × List Char))
    (hmono : List.Chain' (· ≤ ·) (trace.map Prod.fst)) :
    List.Chain' (· ≤ ·) ((runMessages trace []).map Sample.time) ∧
    (runMessages trace []).length =
      trace.countP (fun p => (parsedSample p.1 p.2).isSome) ∧
    ∀ p ∈ trace, ∀ s, parsedSample p.1 p.2 = some s → s.time = p.1 := by
  refine ⟨?_, ?_, fun p _ s hs => parsedSample_time hs⟩
  · rw [runMessages_eq, List.nil_append, filterMap_time_eq]
    exact List.Chain'.sublist hmono (List.Sublist.map _ (List.filter_sublist _))
  · rw [runMessages_eq, List.nil_append]
    have h := congrArg List.length (filterMap_time_eq trace)
    simp only [List.length_map] at h
    rw [h, ← List.countP_eq_length_filter]

/-- Witness for C6 on a concrete three-payload trace (two accepted, one
rejected). -/
theorem claim_C6_series_invariant_witness :
    List.Chain' (· ≤ ·)
      ((runMessages [(1, "Average, 95; Min, 40; Max, 150;".toList),
          (2, "bogus".toList), (5, "average,1;min,2;max,3;".toList)] []).map
        Sample.time) ∧
    (runMessages [(1, "Average, 95; Min, 40; Max, 150;".toList),
        (2, "bogus".toList), (5, "average,1;min,2;max,3;".toList)] []).length =
      List.countP (fun p => (parsedSample p.1 p.2).isSome)
        [(1, "Average, 95; Min, 40; Max, 150;".toList),
          (2, "bogus".toList), (5, "average,1;min,2;max,3;".toList)] ∧
    ∀ p ∈ [(1, "Average, 95; Min, 40; Max, 150;".toList),
        (2, "bogus".toList), (5, "average,1;min,2;max,3;".toList)],
      ∀ s, parsedSample p.1 p.2 = some s → s.time = p.1 :=
  claim_C6_series_invariant
    [(1, "Average, 95; Min, 40; Max, 150;".toList),
      (2, "bogus".toList), (5, "average,1;min,2;max,3;".toList)]
    (by simp [List.chain'_cons])

/-- C1: for every well-formed input of the form
`"Average, <a>; Min, <m>; Max, <M>;"` — labels containing the keywords
(case-insensitively, hence stated of the lower-cased text), a comma, a
value, with irregular whitespace tolerated inside labels and around
values — `parseMessage` returns a sample whose average/min/max fields are
exactly the three parsed numbers and whose `time` is the clock value of
the call itself (so not older than the call), and exactly that sample is
appended to the series. -/
theorem claim_C1_wellformed (now : ℕ) (series : List Sample)
    (message L0 V0 L1 V1 L2 V2 : List Char) (a m mx : ℚ)
    (hmsg : jsLower message =
      (L0 ++ ',' :: V0) ++ ';' ::
        ((L1 ++ ',' :: V1) ++ ';' :: ((L2 ++ ',' :: V2) ++ [';'])))
    (hsep : ∀ x ∈ [L0, V0, L1, V1, L2, V2], ';' ∉ x ∧ ',' ∉ x)
    (hw0 : kwAverage <:+: L0) (hw1 : kwMin <:+: L1) (hw2 : kwMax <:+: L2)
    (ha : jsNumber V0 = some a) (hm : jsNumber V1 = some m)
    (hx : jsNumber V2 = some mx) :
    parseMessage now message = .sample ⟨now, m, mx, a⟩ ∧
    (parseStep now series message).2 = series ++ [⟨now, m, mx, a⟩] := by
  have hka : jsIncludes kwAverage (jsLower message) = true := by
    rw [jsIncludes_iff, hmsg]
    obtain ⟨u, v, huv⟩ := hw0
    exact ⟨u, v ++ ',' :: V0 ++ ';' ::
      ((L1 ++ ',' :: V1) ++ ';' :: ((L2 ++ ',' :: V2) ++ [';'])),
      by rw [← huv]; simp⟩
  have hkm : jsIncludes kwMin (jsLower message) = true := by
    rw [jsIncludes_iff, hmsg]
    obtain ⟨u, v, huv⟩ := hw1
    exact ⟨(L0 ++ ',' :: V0) ++ ';' :: u,
      v ++ ',' :: V1 ++ ';' :: ((L2 ++ ',' :: V2) ++ [';']),
      by rw [← huv]; simp⟩
  have hkx : jsIncludes kwMax (jsLower message) = true := by
    rw [jsIncludes_iff, hmsg]
    obtain ⟨u, v, huv⟩ := hw2
    exact ⟨(L0 ++ ',' :: V0) ++ ';' :: ((L1 ++ ',' :: V1) ++ ';' :: u),
      v ++ ',' :: V2 ++ [';'], by rw [← huv]; simp⟩
  have key := parseMessage_decomp now message L0 V0 [] L1 V1 [] L2 V2 [] [';']
    (by simpa using hmsg)
    (by
      intro x hx'
      simp only [List.mem_cons, List.not_mem_nil, or_false] at hx'
      rcases hx' with rfl | rfl | rfl | rfl | rfl | rfl | rfl | rfl | rfl <;>
        first
          | simp
          | exact (hsep x (by simp)).1)
    (by
      intro x hx'
      simp only [List.mem_cons, List.not_mem_nil, or_false] at hx'
      rcases hx' with rfl | rfl | rfl <;> exact (hsep x (by simp)).2)
    (by
      intro x hx'
      simp only [List.mem_cons, List.not_mem_nil, or_false] at hx'
      rcases hx' with rfl | rfl | rfl <;> exact (hsep x (by simp)).2)
    (by
      intro x hx'
      simp only [List.mem_cons, List.not_mem_nil, or_false] at hx'
      rcases hx' with rfl | rfl | rfl <;> exact Or.inl rfl)
    (Or.inr ⟨[], rfl⟩) hka hkm hkx
  have h1 : parseMessage now message = .sample ⟨now, m, mx, a⟩ := by
    rw [key, ha, hm, hx]
  refine ⟨h1, ?_⟩
  unfold parseStep
  rw [h1]
  rfl

/-- Witness for C1 on the specification's irregular-spacing scenario. -/
theorem claim_C1_wellformed_witness :
    parseMessage 7 "average,95.5 ; min , 40.2; max, 150.9;".toList =
      .sample ⟨7, mkRat 201 5, mkRat 1509 10, mkRat 191 2⟩ ∧
    (parseStep 7 [] "average,95.5 ; min , 40.2; max, 150.9;".toList).2 =
      [⟨7, mkRat 201 5, mkRat 1509 10, mkRat 191 2⟩] :=
  claim_C1_wellformed 7 [] "average,95.5 ; min , 40.2; max, 150.9;".toList
    "average".toList "95.5 ".toList " min ".toList " 40.2".toList
    " max".toList " 150.9".toList (mkRat 191 2) (mkRat 201 5) (mkRat 1509 10)
    (by decide) (by decide) (by decide) (by decide) (by decide) (by decide)
    (by decide) (by decide)

/-- C2 counterexample: the claim reads each field's value as "the entire
substring after the first comma of that segment" (trimmed); the source's
`split(',')[1]` instead takes the slice between the first comma and the
next one.  On `"average,1,2;min,3;max,4;"` the claim's value for field 0
is `"1,2"`, which is not numeric — so under the claim the payload would
yield no sample with average 1 — while the code accepts it with
average 1. -/
theorem claim_C2_counterexample :
    specSegValue "average,1,2".toList = some "1,2".toList ∧
    jsNumber "1,2".toList = none ∧
    segValue "average,1,2".toList = some "1".toList ∧
    parseMessage 0 "average,1,2;min,3;max,4;".toList =
      .sample ⟨0, 3, 4, 1⟩ := by decide

/-- C2 (amended): on a payload containing the three keywords whose
lower-cased text has at least three semicolon-separated comma-bearing
segments, segment 0 is assigned to average, segment 1 to min and
segment 2 to max regardless of label text, and each field's value is the
substring between the segment's first comma and its next comma (or the
segment's end), trimmed and converted by `Number`; the payload is
accepted exactly when all three conversions are numeric. -/
theorem claim_C2_positional (now : ℕ)
    (message L0 V0 T0 L1 V1 T1 L2 V2 T2 T3 : List Char)
    (hmsg : jsLower message =
      (L0 ++ ',' :: (V0 ++ T0)) ++ ';' ::
        ((L1 ++ ',' :: (V1 ++ T1)) ++ ';' :: ((L2 ++ ',' :: (V2 ++ T2)) ++ T3)))
    (hs : ∀ x ∈ [L0, V0, T0, L1, V1, T1, L2, V2, T2], ';' ∉ x)
    (hL : ∀ x ∈ [L0, L1, L2], ',' ∉ x)
    (hV : ∀ x ∈ [V0, V1, V2], ',' ∉ x)
    (hT : ∀ x ∈ [T0, T1, T2], x = [] ∨ ∃ u, x = ',' :: u)
    (hT3 : T3 = [] ∨ ∃ u, T3 = ';' :: u)
    (hka : kwAverage <:+: jsLower message) (hkm : kwMin <:+: jsLower message)
    (hkx : kwMax <:+: jsLower message) :
    (∀ a m mx, jsNumber V0 = some a → jsNumber V1 = some m →
      jsNumber V2 = some mx →
      parseMessage now message = .sample ⟨now, m, mx, a⟩) ∧
    ((jsNumber V0 = none ∨ jsNumber V1 = none ∨ jsNumber V2 = none) →
      parseMessage now message = .noSample) := by
  have key := parseMessage_decomp now message L0 V0 T0 L1 V1 T1 L2 V2 T2 T3
    hmsg hs hL hV hT hT3 ((jsIncludes_iff _ _).mpr hka)
    ((jsIncludes_iff _ _).mpr hkm) ((jsIncludes_iff _ _).mpr hkx)
  constructor
  · intro a m mx h0 h1 h2
    rw [key, h0, h1, h2]
  · intro hn
    rw [key]
    rcases hn with h | h | h
    · rw [h]
    · rw [h]
      cases jsNumber V0 <;> rfl
    · rw [h]
      cases jsNumber V0 <;> cases jsNumber V1 <;> rfl

/-- Witness for C2: a segment with a second comma is accepted with the
between-commas value, and a non-numeric value in position 0 rejects. -/
theorem claim_C2_positional_witness :
    parseMessage 0 "average,1,2;min,3;max,4;".toList =
      .sample ⟨0, 3, 4, 1⟩ ∧
    parseMessage 0 "average,zzz;min,3;max,4;".toList = .noSample :=
  ⟨(claim_C2_positional 0 "average,1,2;min,3;max,4;".toList
      "average".toList "1".toList ",2".toList "min".toList "3".toList []
      "max".toList "4".toList [] [';']
      (by decide) (by decide) (by decide) (by decide)
      (by
        intro x hx'
        simp only [List.mem_cons, List.not_mem_nil, or_false] at hx'
        rcases hx' with rfl | rfl | rfl
        · exact Or.inr ⟨['2'], rfl⟩
        · exact Or.inl rfl
        · exact Or.inl rfl)
      (Or.inr ⟨[], rfl⟩) (by decide) (by decide) (by decide)).1
    1 3 4 (by decide) (by decide) (by decide),
   (claim_C2_positional 0 "average,zzz;min,3;max,4;".toList
      "average".toList "zzz".toList [] "min".toList "3".toList []
      "max".toList "4".toList [] [';']
      (by decide) (by decide) (by decide) (by decide)
      (by
        intro x hx'
        simp only [List.mem_cons, List.not_mem_nil, or_false] at hx'
        rcases hx' with rfl | rfl | rfl <;> exact Or.inl rfl)
      (Or.inr ⟨[], rfl⟩) (by decide) (by decide) (by decide)).2
    (Or.inl (by decide))⟩

/-- C3 counterexample: the claim says a structurally malformed payload
(here: keywords present but only two semicolon-delimited segments) is
silently rejected with the call terminating normally.  The code instead
throws a `TypeError` (`messageValues[2]` is `undefined`), modelled as the
`crash` outcome, which is distinct from the silent-rejection outcome. -/
theorem claim_C3_counterexample :
    jsIncludes kwAverage (jsLower "average, 1; min max".toList) = true ∧
    jsIncludes kwMin (jsLower "average, 1; min max".toList) = true ∧
    jsIncludes kwMax (jsLower "average, 1; min max".toList) = true ∧
    (jsSplit ';' (jsLower "average, 1; min max".toList)).length = 2 ∧
    parseMessage 0 "average, 1; min max".toList = .crash ∧
    parseMessage 0 "average, 1; min max".toList ≠ .noSample := by decide

/-- C3 (amended): on a payload that passes the keyword test but is missing
one of the first three semicolon-delimited segments, or whose first,
second or third segment lacks a comma, `parseMessage` fails with a thrown
`TypeError` rather than terminating normally; no sample is emitted and
the series is unchanged. -/
theorem claim_C3_malformed_crash (now : ℕ) (series : List Sample)
    (message : List Char)
    (hka : kwAverage <:+: jsLower message) (hkm : kwMin <:+: jsLower message)
    (hkx : kwMax <:+: jsLower message)
    (hbad : (jsSplit ';' (jsLower message)).length < 3 ∨
      ∃ i, i < 3 ∧ ∃ s, (jsSplit ';' (jsLower message))[i]? = some s ∧
        ',' ∉ s) :
    parseMessage now message = .crash ∧
    (parseStep now series message).2 = series := by
  have h := parseMessage_malformed now message ((jsIncludes_iff _ _).mpr hka)
    ((jsIncludes_iff _ _).mpr hkm) ((jsIncludes_iff _ _).mpr hkx) hbad
  refine ⟨h, ?_⟩
  unfold parseStep
  rw [h]

/-- Witness for C3 at the two-segment payload above, and at a payload
whose second segment lacks a comma. -/
theorem claim_C3_malformed_crash_witness :
    (parseMessage 0 "average, 1; min max".toList = .crash ∧
      (parseStep 0 [] "average, 1; min max".toList).2 = []) ∧
    (parseMessage 0 "average, 1; min max; max, 2;".toList = .crash ∧
      (parseStep 0 [] "average, 1; min max; max, 2;".toList).2 = []) :=
  ⟨claim_C3_malformed_crash 0 [] "average, 1; min max".toList
      (by decide) (by decide) (by decide) (Or.inl (by decide)),
   claim_C3_malformed_crash 0 [] "average, 1; min max; max, 2;".toList
      (by decide) (by decide) (by decide)
      (Or.inr ⟨1, by decide, " min max".toList, by decide, by decide⟩)⟩

/-- C4: a payload whose lower-cased text lacks one of the keywords is
silently dropped with the series unchanged; and a payload with the
keywords and three comma-bearing segments whose first, second or third
value converts to `NaN` is silently dropped with the series unchanged
(no partial sample). -/
theorem claim_C4_rejections (now : ℕ) (series : List Sample)
    (message : List Char) :
    ((¬ kwAverage <:+: jsLower message ∨ ¬ kwMin <:+: jsLower message ∨
        ¬ kwMax <:+: jsLower message) →
      parseMessage now message = .noSample ∧
      (parseStep now series message).2 = series) ∧
    (∀ s0 s1 s2 v0 v1 v2,
      kwAverage <:+: jsLower message → kwMin <:+: jsLower message →
      kwMax <:+: jsLower message →
      (jsSplit ';' (jsLower message))[0]? = some s0 →
      (jsSplit ';' (jsLower message))[1]? = some s1 →
      (jsSplit ';' (jsLower message))[2]? = some s2 →
      segValue s0 = some v0 → segValue s1 = some v1 → segValue s2 = some v2 →
      (jsNumber v0 = none ∨ jsNumber v1 = none ∨ jsNumber v2 = none) →
      parseMessage now message = .noSample ∧
      (parseStep now series message).2 = series) := by
  constructor
  · intro hmiss
    have hfalse : jsIncludes kwAverage (jsLower message) = false ∨
        jsIncludes kwMin (jsLower message) = false ∨
        jsIncludes kwMax (jsLower message) = false := by
      rcases hmiss with h | h | h
      · exact Or.inl (by
          cases hb : jsIncludes kwAverage (jsLower message)
          · rfl
          · exact absurd ((jsIncludes_iff _ _).mp hb) h)
      · exact Or.inr (Or.inl (by
          cases hb : jsIncludes kwMin (jsLower message)
          · rfl
          · exact absurd ((jsIncludes_iff _ _).mp hb) h))
      · exact Or.inr (Or.inr (by
          cases hb : jsIncludes kwMax (jsLower message)
          · rfl
          · exact absurd ((jsIncludes_iff _ _).mp hb) h))
    have hns : parseMessage now message = .noSample := by
      rcases hfalse with h | h | h <;>
        simp [parseMessage, h]
    refine ⟨hns, ?_⟩
    unfold parseStep
    rw [hns]
  · intro s0 s1 s2 v0 v1 v2 hka hkm hkx h0 h1 h2 hv0 hv1 hv2 hnan
    have hns : parseMessage now message = .noSample := by
      simp only [parseMessage, (jsIncludes_iff _ _).mpr hka,
        (jsIncludes_iff _ _).mpr hkm, (jsIncludes_iff _ _).mpr hkx,
        Bool.and_self, if_true, h0, h1, h2, hv0, hv1, hv2]
      rcases hnan with h | h | h
      · rw [h]
      · rw [h]
        cases jsNumber v0 <;> rfl
      · rw [h]
        cases jsNumber v0 <;> cases jsNumber v1 <;> rfl
    refine ⟨hns, ?_⟩
    unfold parseStep
    rw [hns]

/-- Witness for C4: the specification's keyword-less scenario 3 and
non-numeric scenario 4. -/
theorem claim_C4_rejections_witness :
    (parseMessage 0 "Temp update: all nominal".toList = .noSample ∧
      (parseStep 0 [] "Temp update: all nominal".toList).2 = []) ∧
    (parseMessage 0 "Average, abc; Min, 40; Max, 150;".toList = .noSample ∧
      (parseStep 0 [] "Average, abc; Min, 40; Max, 150;".toList).2 = []) :=
  ⟨(claim_C4_rejections 0 [] "Temp update: all nominal".toList).1
      (Or.inl (by decide)),
   (claim_C4_rejections 0 [] "Average, abc; Min, 40; Max, 150;".toList).2
      "average, abc".toList " min, 40".toList " max, 150".toList
      "abc".toList "40".toList "150".toList
      (by decide) (by decide) (by decide) (by decide) (by decide) (by decide)
      (by decide) (by decide) (by decide) (Or.inl (by decide))⟩

/-- C7: `connect` with a broker URL that does not start with `wss://` is
rejected before any connection attempt: the status is set to the
scheme-requirement message, no client is created, and the existing
connection state (handle and connected flag) is untouched.  The source
performs this check unconditionally, so in particular it holds when the
page is served securely, which is the situation its status text
describes. -/
theorem claim_C7_insecure_url (newClient : ℕ) (endThrows : Bool)
    (brokerUrl : List Char) (st : AppState)
    (h : wssScheme.isPrefixOf brokerUrl = false) :
    connect newClient endThrows brokerUrl st =
      { st with status := statusSchemeError } ∧
    (connect newClient endThrows brokerUrl st).client = st.client ∧
    (connect newClient endThrows brokerUrl st).isConnected =
      st.isConnected ∧
    (connect newClient endThrows brokerUrl st).status = statusSchemeError := by
  have he : connect newClient endThrows brokerUrl st =
      { st with status := statusSchemeError } := by
    simp [connect, h]
  exact ⟨he, by rw [he], by rw [he], by rw [he]⟩

/-- Witness for C7 at the specification's scenario 5 URL, with a live
connection in place. -/
theorem claim_C7_insecure_url_witness :
    connect 9 false "ws://broker.example.com".toList
        ⟨some 3, true, "Subscribed to: t".toList⟩ =
      { client := some 3, isConnected := true, status := statusSchemeError } ∧
    (connect 9 false "ws://broker.example.com".toList
        ⟨some 3, true, "Subscribed to: t".toList⟩).client = some 3 ∧
    (connect 9 false "ws://broker.example.com".toList
        ⟨some 3, true, "Subscribed to: t".toList⟩).isConnected = true ∧
    (connect 9 false "ws://broker.example.com".toList
        ⟨some 3, true, "Subscribed to: t".toList⟩).status =
      statusSchemeError :=
  claim_C7_insecure_url 9 false "ws://broker.example.com".toList
    ⟨some 3, true, "Subscribed to: t".toList⟩ (by decide)

/-- C8: at most one broker handle is live at a time — `connect` on a
valid URL first tears down any existing handle and installs the new
client as the only live handle — and a teardown failure is swallowed:
neither `disconnect`'s resulting state nor `connect`'s depends on whether
`c.end(true)` threw, so the failure can never prevent the new
connection. -/
theorem claim_C8_single_handle (newClient oldClient : ℕ)
    (brokerUrl : List Char) (st : AppState) :
    (∀ e, disconnect e st = disconnect false st) ∧
    (∀ e, connect newClient e brokerUrl st =
      connect newClient false brokerUrl st) ∧
    (∀ e, (disconnect e st).client = none) ∧
    (wssScheme.isPrefixOf brokerUrl = true → ∀ e,
      (connect newClient e brokerUrl st).client = some newClient ∧
      (st.client = some oldClient →
        (connect newClient e brokerUrl st).client = some oldClient →
        oldClient = newClient)) := by
  obtain ⟨cl, ic, stt⟩ := st
  have hd : ∀ e, disconnect e ⟨cl, ic, stt⟩ = disconnect false ⟨cl, ic, stt⟩ := by
    intro e
    cases cl <;> rfl
  refine ⟨hd, fun e => ?_, fun e => ?_, fun h e => ?_⟩
  · unfold connect
    split
    · rfl
    · rw [hd e]
  · unfold disconnect
    cases cl <;> rfl
  · have hc : (connect newClient e brokerUrl ⟨cl, ic, stt⟩).client =
        some newClient := by
      simp [connect, h]
    exact ⟨hc, fun _ h2 => by
      rw [hc] at h2
      injection h2 with h3
      exact h3.symm⟩

/-- Witness for C8 with a live old handle, a valid `wss://` URL, and a
teardown that throws. -/
theorem claim_C8_single_handle_witness :
    disconnect true ⟨some 3, true, "Connected".toList⟩ =
      disconnect false ⟨some 3, true, "Connected".toList⟩ ∧
    connect 9 true "wss://broker.example.com".toList
        ⟨some 3, true, "Connected".toList⟩ =
      connect 9 false "wss://broker.example.com".toList
        ⟨some 3, true, "Connected".toList⟩ ∧
    (disconnect true ⟨some 3, true, "Connected".toList⟩).client = none ∧
    (connect 9 true "wss://broker.example.com".toList
        ⟨some 3, true, "Connected".toList⟩).client = some 9 :=
  ⟨(claim_C8_single_handle 9 3 "wss://broker.example.com".toList
      ⟨some 3, true, "Connected".toList⟩).1 true,
   (claim_C8_single_handle 9 3 "wss://broker.example.com".toList
      ⟨some 3, true, "Connected".toList⟩).2.1 true,
   (claim_C8_single_handle 9 3 "wss://broker.example.com".toList
      ⟨some 3, true, "Connected".toList⟩).2.2.1 true,
   ((claim_C8_single_handle 9 3 "wss://broker.example.com".toList
      ⟨some 3, true, "Connected".toList⟩).2.2.2 (by decide) true).1⟩

/-- C9 counterexample: the claim asserts that for *every* payload with
the keywords, three comma-bearing segments and an empty value, "a Sample
is accepted and appended".  On `"average,;min,x;max,1;"` the empty first
value does convert to 0, but the non-numeric second value rejects the
whole payload, so no sample is accepted. -/
theorem claim_C9_counterexample :
    jsIncludes kwAverage (jsLower "average,;min,x;max,1;".toList) = true ∧
    jsIncludes kwMin (jsLower "average,;min,x;max,1;".toList) = true ∧
    jsIncludes kwMax (jsLower "average,;min,x;max,1;".toList) = true ∧
    jsSplit ';' (jsLower "average,;min,x;max,1;".toList) =
      ["average,".toList, "min,x".toList, "max,1".toList, []] ∧
    segValue "average,".toList = some [] ∧
    segValue "min,x".toList = some "x".toList ∧
    segValue "max,1".toList = some "1".toList ∧
    jsNumber [] = some 0 ∧
    parseMessage 0 "average,;min,x;max,1;".toList = .noSample := by decide

/-- C9 (amended): on a payload with the keywords and three comma-bearing
segments, a value that is empty or whitespace after its first comma does
not cause rejection — the trimmed empty string converts to 0 — so,
provided the remaining values are numeric, a sample is accepted and
appended with the empty-valued field equal to 0. -/
theorem claim_C9_empty_value (now : ℕ) (series : List Sample)
    (message L0 V0 T0 L1 V1 T1 L2 V2 T2 T3 : List Char) (a m mx : ℚ)
    (hmsg : jsLower message =
      (L0 ++ ',' :: (V0 ++ T0)) ++ ';' ::
        ((L1 ++ ',' :: (V1 ++ T1)) ++ ';' :: ((L2 ++ ',' :: (V2 ++ T2)) ++ T3)))
    (hs : ∀ x ∈ [L0, V0, T0, L1, V1, T1, L2, V2, T2], ';' ∉ x)
    (hL : ∀ x ∈ [L0, L1, L2], ',' ∉ x)
    (hV : ∀ x ∈ [V0, V1, V2], ',' ∉ x)
    (hT : ∀ x ∈ [T0, T1, T2], x = [] ∨ ∃ u, x = ',' :: u)
    (hT3 : T3 = [] ∨ ∃ u, T3 = ';' :: u)
    (hka : kwAverage <:+: jsLower message) (hkm : kwMin <:+: jsLower message)
    (hkx : kwMax <:+: jsLower message)
    (hempty : jsTrim V0 = [] ∨ jsTrim V1 = [] ∨ jsTrim V2 = [])
    (ha : jsNumber V0 = some a) (hm : jsNumber V1 = some m)
    (hx : jsNumber V2 = some mx) :
    parseMessage now message = .sample ⟨now, m, mx, a⟩ ∧
    (parseStep now series message).2 = series ++ [⟨now, m, mx, a⟩] ∧
    (jsTrim V0 = [] → a = 0) ∧ (jsTrim V1 = [] → m = 0) ∧
    (jsTrim V2 = [] → mx = 0) := by
  have key := parseMessage_decomp now message L0 V0 T0 L1 V1 T1 L2 V2 T2 T3
    hmsg hs hL hV hT hT3 ((jsIncludes_iff _ _).mpr hka)
    ((jsIncludes_iff _ _).mpr hkm) ((jsIncludes_iff _ _).mpr hkx)
  have h1 : parseMessage now message = .sample ⟨now, m, mx, a⟩ := by
    rw [key, ha, hm, hx]
  have hzero : ∀ (V : List Char) (q : ℚ), jsNumber V = some q →
      jsTrim V = [] → q = 0 := by
    intro V q hq he
    unfold jsNumber at hq
    rw [he] at hq
    rw [show numTrimmed [] = some (0 : ℚ) from rfl, Option.some_inj] at hq
    exact hq.symm
  refine ⟨h1, ?_, hzero V0 a ha, hzero V1 m hm, hzero V2 mx hx⟩
  unfold parseStep
  rw [h1]
  rfl

/-- Witness for C9: an empty average value with numeric min and max is
accepted with average 0 and appended. -/
theorem claim_C9_empty_value_witness :
    parseMessage 4 "average, ; min, 1; max, 2;".toList =
      .sample ⟨4, 1, 2, 0⟩ ∧
    (parseStep 4 [] "average, ; min, 1; max, 2;".toList).2 =
      [⟨4, 1, 2, 0⟩] ∧
    (jsTrim " ".toList = [] → (0 : ℚ) = 0) ∧
    (jsTrim " 1".toList = [] → (1 : ℚ) = 0) ∧
    (jsTrim " 2".toList = [] → (2 : ℚ) = 0) :=
  claim_C9_empty_value 4 [] "average, ; min, 1; max, 2;".toList
    "average".toList " ".toList [] " min".toList " 1".toList []
    " max".toList " 2".toList [] [';'] 0 1 2 (by decide)
    (by intro x hx'; fin_cases hx' <;> decide)
    (by intro x hx'; fin_cases hx' <;> decide)
    (by intro x hx'; fin_cases hx' <;> decide)
    (by intro x hx'; fin_cases hx' <;> exact Or.inl rfl)
    (Or.inr ⟨[], rfl⟩) (by decide) (by decide) (by decide)
    (Or.inl (by decide)) (by decide) (by decide) (by decide)

/-- C10: on a payload with the three keywords whose first three values
are hexadecimal literals `0x<hex-digits>` (in any letter case on the
wire, since the whole payload is lower-cased before splitting, the
lower-cased trimmed values have the `0x` form), `parseMessage` accepts
and produces a sample whose fields are the integer values of those
literals, even though the wire format describes plain decimal floats. -/
theorem claim_C10_hex (now : ℕ) (series : List Sample)
    (message L0 V0 T0 L1 V1 T1 L2 V2 T2 T3 da dm dx : List Char)
    (hmsg : jsLower message =
      (L0 ++ ',' :: (V0 ++ T0)) ++ ';' ::
        ((L1 ++ ',' :: (V1 ++ T1)) ++ ';' :: ((L2 ++ ',' :: (V2 ++ T2)) ++ T3)))
    (hs : ∀ x ∈ [L0, V0, T0, L1, V1, T1, L2, V2, T2], ';' ∉ x)
    (hL : ∀ x ∈ [L0, L1, L2], ',' ∉ x)
    (hV : ∀ x ∈ [V0, V1, V2], ',' ∉ x)
    (hT : ∀ x ∈ [T0, T1, T2], x = [] ∨ ∃ u, x = ',' :: u)
    (hT3 : T3 = [] ∨ ∃ u, T3 = ';' :: u)
    (hka : kwAverage <:+: jsLower message) (hkm : kwMin <:+: jsLower message)
    (hkx : kwMax <:+: jsLower message)
    (h0 : jsTrim V0 = '0' :: 'x' :: da) (hda : da ≠ [])
    (hda2 : da.all isHexDig = true)
    (h1 : jsTrim V1 = '0' :: 'x' :: dm) (hdm : dm ≠ [])
    (hdm2 : dm.all isHexDig = true)
    (h2 : jsTrim V2 = '0' :: 'x' :: dx) (hdx : dx ≠ [])
    (hdx2 : dx.all isHexDig = true) :
    parseMessage now message =
      .sample ⟨now, (hexVal dm : ℚ), (hexVal dx : ℚ), (hexVal da : ℚ)⟩ ∧
    (parseStep now series message).2 =
      series ++ [⟨now, (hexVal dm : ℚ), (hexVal dx : ℚ), (hexVal da : ℚ)⟩] := by
  have hhex : ∀ (V ds : List Char), jsTrim V = '0' :: 'x' :: ds → ds ≠ [] →
      ds.all isHexDig = true → jsNumber V = some ((hexVal ds : ℚ)) := by
    intro V ds hV' hne hall
    unfold jsNumber
    rw [hV', numTrimmed_hex hne hall, mkRat_natCast]
  have ha := hhex V0 da h0 hda hda2
  have hm := hhex V1 dm h1 hdm hdm2
  have hx := hhex V2 dx h2 hdx hdx2
  have key := parseMessage_decomp now message L0 V0 T0 L1 V1 T1 L2 V2 T2 T3
    hmsg hs hL hV hT hT3 ((jsIncludes_iff _ _).mpr hka)
    ((jsIncludes_iff _ _).mpr hkm) ((jsIncludes_iff _ _).mpr hkx)
  have hmain : parseMessage now message =
      .sample ⟨now, (hexVal dm : ℚ), (hexVal dx : ℚ), (hexVal da : ℚ)⟩ := by
    rw [key, ha, hm, hx]
  refine ⟨hmain, ?_⟩
  unfold parseStep
  rw [hmain]
  rfl

/-- Witness for C10: upper-case hex literals on the wire are lower-cased
and accepted with their integer values. -/
theorem claim_C10_hex_witness :
    parseMessage 6 "Average, 0XAB; Min, 0x10; Max, 0xff;".toList =
      .sample ⟨6, (hexVal "10".toList : ℚ), (hexVal "ff".toList : ℚ),
        (hexVal "ab".toList : ℚ)⟩ ∧
    (parseStep 6 [] "Average, 0XAB; Min, 0x10; Max, 0xff;".toList).2 =
      [⟨6, (hexVal "10".toList : ℚ), (hexVal "ff".toList : ℚ),
        (hexVal "ab".toList : ℚ)⟩] :=
  claim_C10_hex 6 [] "Average, 0XAB; Min, 0x10; Max, 0xff;".toList
    "average".toList " 0xab".toList [] " min".toList " 0x10".toList []
    " max".toList " 0xff".toList [] [';'] "ab".toList "10".toList
    "ff".toList (by decide)
    (by intro x hx'; fin_cases hx' <;> decide)
    (by intro x hx'; fin_cases hx' <;> decide)
    (by intro x hx'; fin_cases hx' <;> decide)
    (by intro x hx'; fin_cases hx' <;> exact Or.inl rfl)
    (Or.inr ⟨[], rfl⟩) (by decide) (by decide) (by decide)
    (by decide) (by decide) (by decide) (by decide) (by decide) (by decide)
    (by decide) (by decide) (by decide)
